import Mathlib

/-!
# Verification of the MongoDB-backed store (`linkedin_news_post/mongo_store.py`)

Shallow embedding of `MongoDBBaseStore` and its helpers.  Documents are
modelled as a Lean structure, the Mongo collection as a `List Doc` in
insertion order (`insert_one` appends, `find_one`/`update_one`/`delete_one`
act on the first matching document).  Timestamps are rationals measured in
minutes, so `datetime.now() + timedelta(minutes=ttl)` becomes `now + ttl`.
Backend-computed result sets (the Atlas `$search` pipeline contents and the
text-scored cursor of a `find`) are oracle inputs; the `$skip`/`$limit`
stages and the python-side post-processing are embedded faithfully.
-/

/-- JSON-like values (python dicts/lists/strings/numbers), the payload type
of a record's `value` field.  Dicts are association lists with distinct keys
(python dict semantics); lookup takes the first binding. -/
inductive JsonVal where
  | null
  | bool (b : Bool)
  | num (q : ℚ)
  | str (s : String)
  | arr (xs : List JsonVal)
  | obj (fields : List (String × JsonVal))

/-- Python `field.split(".")` on the character list: auxiliary loop carrying
the (reversed) current chunk. -/
def splitDotsAux : List Char → List Char → List String
  | cur, [] => [String.mk cur.reverse]
  | cur, c :: cs =>
    if c = '.' then String.mk cur.reverse :: splitDotsAux [] cs
    else splitDotsAux (c :: cur) cs

/-- Python `field.split(".")`; `"".split(".") = [""]`, `"a..b".split(".") =
["a","","b"]`. -/
def splitDots (s : String) : List String := splitDotsAux [] s.data

/-- Python `s.strip()`: drop leading and trailing whitespace. -/
def pyStrip (s : String) : String :=
  String.mk (((s.data.dropWhile Char.isWhitespace).reverse.dropWhile Char.isWhitespace).reverse)

/-- Python `" ".join(results)`. -/
def joinSp : List String → String
  | [] => ""
  | [s] => s
  | s :: rest => s ++ " " ++ joinSp rest

/-- The descent loop of `get_text_at_path` (mongo_store.py lines 34-40):
starting from the document, follow each path segment through nested dicts;
a missing key or a non-dict intermediate yields `none`. -/
def descendPath : JsonVal → List String → Option JsonVal
  | v, [] => some v
  | JsonVal.obj fs, p :: ps =>
    match fs.lookup p with
    | some v => descendPath v ps
    | none => none
  | _, _ :: _ => none

/-- The accumulator loop of `get_text_at_path` (lines 31-42): for each field,
split on dots, descend, and when the result is a string that is non-empty
after stripping, append the stripped string to `results`. -/
def gtap_loop (doc : JsonVal) : List String → List String → List String
  | results, [] => results
  | results, field :: rest =>
    match descendPath doc (splitDots field) with
    | some (JsonVal.str s) =>
      if pyStrip s ≠ "" then gtap_loop doc (results ++ [pyStrip s]) rest
      else gtap_loop doc results rest
    | _ => gtap_loop doc results rest

/-- `get_text_at_path` (mongo_store.py lines 25-43): join the collected
contributions with single spaces. -/
def get_text_at_path (doc : JsonVal) (fields : List String) : String :=
  joinSp (gtap_loop doc [] fields)

/-- The extraction formula as the specification sentence words it: the
concatenation, in configured-field order and joined with single spaces, of
the string found by descending each field's dotted path; a field contributes
nothing when a segment is missing or the path resolves to a non-string.
(No stripping of the found strings.) -/
def get_text_at_path_claim (doc : JsonVal) (fields : List String) : String :=
  joinSp (fields.filterMap (fun field =>
    match descendPath doc (splitDots field) with
    | some (JsonVal.str s) => some s
    | _ => none))

/-- The extraction formula amended to match the code: each found string is
stripped, and a string that is empty after stripping contributes nothing. -/
def get_text_at_path_amended (doc : JsonVal) (fields : List String) : String :=
  joinSp (fields.filterMap (fun field =>
    match descendPath doc (splitDots field) with
    | some (JsonVal.str s) => if pyStrip s = "" then none else some (pyStrip s)
    | _ => none))

/-- The `index` argument of `put`: python allows `None` (modelled by the
surrounding `Option`), a boolean, or a list of field paths. -/
inductive IdxVal where
  | flag (b : Bool)
  | fieldList (fs : List String)
  deriving DecidableEq, Repr

/-- The python test `index is False` (the negation of line 318's
`index is not False`): only the literal boolean `False` opts a write out. -/
def optedOut : Option IdxVal → Bool
  | some (IdxVal.flag false) => true
  | _ => false

/-- The three-state `ttl` argument of `put`: the `NOT_PROVIDED` sentinel,
an explicit `None`, or a numeric TTL in minutes. -/
inductive TtlArg where
  | notProvided
  | given (t : Option ℚ)

/-- A stored document, as built by `put` (mongo_store.py lines 305-332).
`nspace` is the python `namespace` field (`namespace` is a Lean keyword),
`key` the store-assigned uuid, `logical_key` the caller's key.
`expiration := none` models the field being absent, `some none` the field
set to null, `some (some e)` a datetime.  `score` models the
backend-projected `$meta` score on documents coming back from a search
query (absent on stored documents). -/
structure Doc where
  nspace : List String
  key : String
  logical_key : String
  value : JsonVal
  created : ℚ
  expiration : Option (Option ℚ) := none
  indexed : Option IdxVal := none
  embedding : Option (List ℚ) := none
  score : Option ℚ := none

/-- The construction-time `index_config` dict: an `embed` function, an
ordered list of dotted field paths, and an index name; each key optional.
(`embed` present-with-value-None is conflated with absent.) -/
structure IndexConfig where
  embed : Option (String → List ℚ)
  fields : Option (List String)
  index_name : Option String

/-- The configuration state `__init__` leaves on the store object
(mongo_store.py lines 96-113): the TTL flag and the semantic-search fields. -/
structure StoreConfig where
  ttl_support : Bool
  index_config : Option IndexConfig
  semantic_enabled : Bool
  embedding_fn : Option (String → List ℚ)
  index_name : Option String

/-- The configuration logic of `__init__` (lines 96, 105-113): if an index
config is given and contains `embed`, semantic search is enabled with that
embedding function and the configured (or default) index name; otherwise
semantic search is disabled.  Note that an `index_config` lacking `embed`
silently lands in the disabled branch. -/
def initConfig (ttl_support : Bool) (index_config : Option IndexConfig) : StoreConfig :=
  match index_config with
  | some ic =>
    match ic.embed with
    | some f =>
      { ttl_support := ttl_support, index_config := index_config,
        semantic_enabled := true, embedding_fn := some f,
        index_name := some (ic.index_name.getD "langchain_vsearch_index") }
    | none =>
      { ttl_support := ttl_support, index_config := index_config,
        semantic_enabled := false, embedding_fn := none, index_name := none }
  | none =>
    { ttl_support := ttl_support, index_config := index_config,
      semantic_enabled := false, embedding_fn := none, index_name := none }

namespace MongoDBBaseStore

/-- `__init__` (lines 85-113) as a fallible constructor.  The pymongo
connection and index-creation side effects are abstracted away; the
configuration branch of the python body consists only of assignments,
membership tests and `dict.get` and contains no `raise`, so construction
always succeeds — it never fails for an inconsistent configuration. -/
def init (ttl_support : Bool) (index_config : Option IndexConfig) :
    Except String StoreConfig :=
  Except.ok (initConfig ttl_support index_config)

/-- `_compute_expiration` (lines 124-127): `None` stays `None`, a numeric
TTL yields `now + ttl` (timestamps in minutes). -/
def compute_expiration (now : ℚ) (ttl : Option ℚ) : Option ℚ :=
  match ttl with
  | none => none
  | some t => some (now + t)

/-- The fields used for text extraction in `put` (lines 320-322):
`self._index_config.get("fields", ["$"]) if self._index_config else ["$"]`. -/
def configuredFields (cfg : StoreConfig) : List String :=
  match cfg.index_config with
  | some ic => ic.fields.getD ["$"]
  | none => ["$"]

/-- The document assembled by `put` (lines 303-332).  `uuid` stands for the
freshly drawn `str(uuid.uuid4())` and `now` for `datetime.now(timezone.utc)`.
Field by field: `expiration` is set only when `ttl` is not the sentinel and
TTL support is on (line 312-313); `indexed` is set only when `index` is not
None (lines 314-315); `embedding` is computed when `index is not False` and
semantic search is enabled and the extracted text is non-empty after
stripping (lines 318-332). -/
def putDoc (cfg : StoreConfig) (uuid : String) (now : ℚ)
    (ns : List String) (key : String) (value : JsonVal)
    (index : Option IdxVal) (ttl : TtlArg) : Doc :=
  { nspace := ns, key := uuid, logical_key := key, value := value, created := now,
    expiration :=
      match ttl with
      | TtlArg.notProvided => none
      | TtlArg.given t => if cfg.ttl_support then some (compute_expiration now t) else none,
    indexed := index,
    embedding :=
      if !optedOut index && cfg.semantic_enabled then
        let text := get_text_at_path value (configuredFields cfg)
        if pyStrip text ≠ "" then cfg.embedding_fn.map (fun f => f text) else none
      else none }

/-- `put` (lines 294-335): `insert_one` appends the new document. -/
def put (cfg : StoreConfig) (col : List Doc) (uuid : String) (now : ℚ)
    (ns : List String) (key : String) (value : JsonVal)
    (index : Option IdxVal) (ttl : TtlArg) : List Doc :=
  col ++ [putDoc cfg uuid now ns key value index ttl]

/-- The query predicate of `get`/`delete` (lines 115-116, 137, 338):
exact namespace match plus `"key": key` — note it filters on the stored
`key` field (the uuid), not on `logical_key`. -/
def matchesGetQuery (ns : List String) (key : String) (d : Doc) : Bool :=
  d.nspace == ns && d.key == key

/-- `update_one`: replace the first document matching the predicate. -/
def updateFirst (p : Doc → Bool) (f : Doc → Doc) : List Doc → List Doc
  | [] => []
  | d :: ds => if p d then f d :: ds else d :: updateFirst p f ds

/-- The record returned by `get` (lines 145-151): `key` is
`doc.get("logical_key", doc["key"])` (documents written by `put` always
carry `logical_key`), and `created` serves as both timestamps. -/
structure Item where
  value : JsonVal
  key : String
  nspace : List String
  created_at : ℚ
  updated_at : ℚ

def docToItem (d : Doc) : Item :=
  { value := d.value, key := d.logical_key, nspace := d.nspace,
    created_at := d.created, updated_at := d.created }

/-- `get` (lines 130-151): `find_one` on the exact-namespace-plus-key query;
on a hit, when `refresh_ttl` is truthy, TTL support is on and the document
has a truthy `expiration`, persist `_compute_expiration(10)` as the new
expiration.  Returns the (possibly updated) collection and the item. -/
def get (cfg : StoreConfig) (col : List Doc) (now : ℚ)
    (ns : List String) (key : String) (refresh_ttl : Option Bool) :
    List Doc × Option Item :=
  match col.find? (matchesGetQuery ns key) with
  | none => (col, none)
  | some doc =>
    let hasExp := match doc.expiration with
      | some (some _) => true
      | _ => false
    if refresh_ttl == some true && cfg.ttl_support && hasExp then
      let new_exp := compute_expiration now (some 10)
      (updateFirst (matchesGetQuery ns key) (fun d => { d with expiration := some new_exp }) col,
       some (docToItem { doc with expiration := some new_exp }))
    else (col, some (docToItem doc))

/-- `delete` (lines 337-339): `delete_one` removes the first document
matching the same query as `get` (again filtering on the uuid `key`). -/
def delete (col : List Doc) (ns : List String) (key : String) : List Doc :=
  col.eraseP (matchesGetQuery ns key)

end MongoDBBaseStore

/-- The result shape of `search` (lines 214-221): record fields plus a
best-effort score.  `key` is `doc.get("logical_key", doc["key"])` — and
because the search projections exclude `logical_key`, it is in fact the
uuid `key` field (see `ProjectedDoc`). -/
structure SearchItem where
  nspace : List String
  key : String
  value : JsonVal
  created_at : ℚ
  updated_at : ℚ
  score : Option ℚ

/-- A document as the search code paths see it: the vector pipeline's
`$project` stage (lines 189-197) and the projection of the fallback and
text-only `find` calls (lines 233-240, 272-274) keep only `namespace`,
`key`, `value`, `created` and the backend `score`.  In particular
`logical_key` and `expiration` are projected out. -/
structure ProjectedDoc where
  nspace : List String
  key : String
  value : JsonVal
  created : ℚ
  score : Option ℚ

/-- The projection applied to a matched document by the search queries. -/
def projectSearchDoc (d : Doc) : ProjectedDoc :=
  { nspace := d.nspace, key := d.key, value := d.value,
    created := d.created, score := d.score }

/-- The `SearchItem` built at lines 214-221, 251-258 and 282-290: since a
projected document has no `logical_key`, `doc.get("logical_key",
doc["key"])` always falls back to the uuid `key` field. -/
def searchItemOfProjected (p : ProjectedDoc) : SearchItem :=
  { nspace := p.nspace, key := p.key, value := p.value,
    created_at := p.created, updated_at := p.created, score := p.score }

namespace MongoDBBaseStore

/-- The per-document TTL refresh conditional of `search`'s vector phase
(lines 208-213) and of `get` (lines 141-144), transcribed on an
unprojected document: when `refresh_ttl` is truthy, TTL support is on and
the document carries a truthy expiration, set the expiration to
`_compute_expiration(10)`; the corresponding `update_one` persists the
same value on the matching collection row.  (`get` works on unprojected
documents, so there the branch genuinely fires; in `search` the loop sees
projected documents whose `expiration` was projected out, so the test
`doc.get("expiration")` is always falsy there.) -/
def refreshDoc (cfg : StoreConfig) (refresh_ttl : Option Bool) (now : ℚ) (d : Doc) : Doc :=
  let hasExp := match d.expiration with
    | some (some _) => true
    | _ => false
  if refresh_ttl == some true && cfg.ttl_support && hasExp then
    { d with expiration := some (compute_expiration now (some 10)) }
  else d

/-- The outcome of `self._collection.aggregate(pipeline)` in the vector
phase (lines 200-205).  `ok ds` carries the pipeline contents entering the
`$skip`/`$limit`/`$project` stages (i.e. the backend's candidate documents
after the `$search`, `$match` and `$sort {score: -1}` stages);
`opFailure` is a `pymongo.errors.OperationFailure`. -/
inductive VectorOutcome where
  | ok (ds : List Doc)
  | opFailure (msg : String)

/-- The fallback fill loop of `search` (lines 247-262): walk the fallback
cursor, compute `key_val = doc.get("logical_key", doc["key"])` — the uuid
`key`, as `logical_key` is projected out — skip documents whose `key_val`
was already seen, append the rest, and break as soon as `limit` results
are reached. -/
def fallbackFill (limit : ℕ) :
    List SearchItem → List String → List ProjectedDoc → List SearchItem
  | results, _, [] => results
  | results, seen_keys, d :: ds =>
    let key_val := d.key
    if seen_keys.contains key_val then fallbackFill limit results seen_keys ds
    else
      let results2 := results ++ [searchItemOfProjected d]
      let seen2 := seen_keys ++ [key_val]
      if limit ≤ results2.length then results2
      else fallbackFill limit results2 seen2 ds

/-- The semantic branch of `search` (lines 164-263).  `vector` is the
backend outcome of the aggregation: on success the `$skip offset` /
`$limit limit` stages (lines 187-188) truncate the candidate stream and
the `$project` stage (lines 189-197) strips each document down to
`ProjectedDoc`; on an `OperationFailure` the except-branch sets
`docs = []` (lines 203-205).  The TTL-refresh branch (lines 208-213) tests
`doc.get("expiration")`, which the projection excluded, so it never fires
here (its transcription is `refreshDoc`).  Each document becomes a
`SearchItem` and its `doc.get("logical_key", doc["key"])` — the uuid — is
recorded in `seen_keys`; no duplicate check happens in this phase.  If
fewer than `limit` results were produced, the fallback text query (an
oracle `fallbackRaw`, its cursor sorted by text score) is paged by
`.skip(offset).limit(remaining)` (lines 244-245), projected the same way,
and fed to the fill loop. -/
def search_semantic (cfg : StoreConfig) (now : ℚ) (limit offset : ℕ)
    (refresh_ttl : Option Bool) (vector : VectorOutcome) (fallbackRaw : List Doc) :
    List SearchItem :=
  let docs := match vector with
    | VectorOutcome.ok ds => ((ds.drop offset).take limit).map projectSearchDoc
    | VectorOutcome.opFailure _ => []
  let results := docs.map searchItemOfProjected
  let seen_keys := docs.map (fun d => d.key)
  if results.length < limit then
    let remaining := limit - results.length
    let fb := ((fallbackRaw.drop offset).take remaining).map projectSearchDoc
    fallbackFill limit results seen_keys fb
  else results

/-- The text-only branch of `search` (lines 264-292): the scored cursor
(oracle `textRaw`) paged by `.skip(offset).limit(limit)`, with the same
projection (lines 272-274). -/
def search_text (limit offset : ℕ) (textRaw : List Doc) : List SearchItem :=
  (((textRaw.drop offset).take limit).map projectSearchDoc).map searchItemOfProjected

end MongoDBBaseStore

/-- Lexicographic comparison of namespace tuples, as python's `sorted` uses
on tuples of strings: element-wise string comparison, a strict prefix is
smaller. -/
def nsLe : List String → List String → Bool
  | [], _ => true
  | _ :: _, [] => false
  | a :: as, b :: bs => if a < b then true else if a = b then nsLe as bs else false

/-- Insert into a `nsLe`-sorted list. -/
def insertNS (x : List String) : List (List String) → List (List String)
  | [] => [x]
  | y :: ys => if nsLe x y then x :: y :: ys else y :: insertNS x ys

/-- Insertion sort by `nsLe`; on duplicate-free input this is the sorted
sequence python's `sorted` produces on the corresponding set. -/
def sortNS : List (List String) → List (List String)
  | [] => []
  | x :: xs => insertNS x (sortNS xs)

/-- The `matches_suffix` helper of `list_namespaces` (lines 355-358):
`tuple(ns[-len(sfx):]) == sfx if len(ns) >= len(sfx) else False` for a
non-empty `sfx`. -/
def matchesSuf (sfx ns : List String) : Bool :=
  if sfx.length ≤ ns.length then ns.drop (ns.length - sfx.length) == sfx else false

/-- The suffix-filter stage of `list_namespaces` (lines 354-360): applied
only when the `suffix` argument is truthy (present and non-empty). -/
def suffixFiltered (distinctNs : List (List String)) (sfx : Option (List String)) :
    List (List String) :=
  match sfx with
  | some s => if s.isEmpty then distinctNs else distinctNs.filter (matchesSuf s)
  | none => distinctNs

namespace MongoDBBaseStore

/-- `list_namespaces` (lines 341-364).  `distinctNs` is the backend's
answer to `collection.distinct("namespace", q)` (the optional prefix
condition only shapes that query, so it is absorbed into the oracle).
Then: keep namespaces matching a truthy suffix, truncate each survivor to
its first `max_depth` segments, deduplicate into a set, sort, and take the
`[offset : offset + limit]` slice. -/
def list_namespaces (distinctNs : List (List String))
    (sfx : Option (List String)) (max_depth : Option ℕ)
    (limit offset : ℕ) : List (List String) :=
  let n1 := suffixFiltered distinctNs sfx
  let n2 := match max_depth with
    | some d => n1.map (fun ns : List String => ns.take d)
    | none => n1
  let unique_namespaces := sortNS n2.dedup
  (unique_namespaces.drop offset).take limit

end MongoDBBaseStore

/-- A `MatchCondition` of a `ListNamespacesOp` (lines 388-393): a
`match_type` string ("prefix", "suffix", or anything else, which is
ignored) and a path. -/
structure MatchCondition where
  match_type : String
  path : List String

/-- The condition-extraction loop of the `ListNamespacesOp` branch of
`batch` (lines 386-393), returning the (last) prefix and suffix paths. -/
def extractConds (conds : List MatchCondition) :
    Option (List String) × Option (List String) :=
  conds.foldl (fun acc cond =>
    if cond.match_type == "prefix" then (some cond.path, acc.2)
    else if cond.match_type == "suffix" then (acc.1, some cond.path)
    else acc) (none, none)

/-- A batch operation (lines 366-402).  Each constructor carries the
operation's own parameters together with the backend oracles its execution
consumes (`now` for the wall clock, `uuid` for the fresh storage key, the
search outcome streams, the distinct-namespace answer).  `unknown` stands
for an op of unrecognized kind (the final `else` at line 401). -/
inductive StoreOp where
  | getOp (now : ℚ) (ns : List String) (key : String) (refresh_ttl : Option Bool)
  | searchOp (now : ℚ) (nsPre : List String) (query : Option String)
      (limit offset : ℕ) (refresh_ttl : Option Bool)
      (vector : MongoDBBaseStore.VectorOutcome) (fallbackRaw : List Doc) (textRaw : List Doc)
  | putOp (uuid : String) (now : ℚ) (ns : List String) (key : String)
      (value : Option JsonVal) (index : Option IdxVal) (ttl : TtlArg)
  | listNamespacesOp (conds : List MatchCondition) (max_depth : Option ℕ)
      (limit offset : ℕ) (distinctNs : List (List String))
  | unknown

/-- A batch slot result.  Python `None` — both the return value of
`put`/`delete` and the result slot of an unrecognized op — is the
surrounding `Option`'s `none`. -/
inductive BatchVal where
  | item (it : MongoDBBaseStore.Item)
  | searchRes (l : List SearchItem)
  | nss (l : List (List String))

namespace MongoDBBaseStore

/-- Dispatch of a single batch op (lines 368-403): `GetOp` calls `get`,
`SearchOp` calls `search` (whose top-level mode is chosen by
`semantic_enabled`), a `PutOp` with a value calls `put` and one with
`value = None` calls `delete`, `ListNamespacesOp` extracts the last
prefix/suffix conditions and calls `list_namespaces`, and an op of
unrecognized kind yields `None`.  Returns the updated collection and the
slot result. -/
def execOp (cfg : StoreConfig) (col : List Doc) : StoreOp → List Doc × Option BatchVal
  | StoreOp.getOp now ns key r =>
    let res := get cfg col now ns key r
    (res.1, res.2.map BatchVal.item)
  | StoreOp.searchOp now _nsPre _query limit offset r vec fbRaw txtRaw =>
    let res := if cfg.semantic_enabled then
        search_semantic cfg now limit offset r vec fbRaw
      else search_text limit offset txtRaw
    (col, some (BatchVal.searchRes res))
  | StoreOp.putOp uuid now ns key (some v) index ttl =>
    (put cfg col uuid now ns key v index ttl, none)
  | StoreOp.putOp _ _ ns key none _ _ =>
    (delete col ns key, none)
  | StoreOp.listNamespacesOp conds md limit offset distinctNs =>
    let ps := extractConds conds
    (col, some (BatchVal.nss (list_namespaces distinctNs ps.2 md limit offset)))
  | StoreOp.unknown => (col, none)

/-- `batch` (lines 366-404): execute the ops left to right, threading the
collection, and collect one result per op in submission order. -/
def batch (cfg : StoreConfig) : List Doc → List StoreOp → List Doc × List (Option BatchVal)
  | col, [] => (col, [])
  | col, op :: ops =>
    let r := execOp cfg col op
    let rest := batch cfg r.1 ops
    (rest.1, r.2 :: rest.2)

end MongoDBBaseStore

/-- Concrete fixture: a stored document in namespace `["articles"]` with
storage key `uuid` and logical key `lk` (used for witnesses and
counterexamples). -/
def sampleDoc (uuid lk : String) : Doc :=
  { nspace := ["articles"], key := uuid, logical_key := lk,
    value := JsonVal.null, created := 0 }

/-- Concrete fixture: a store constructed with semantic search enabled
(an `embed` function is configured). -/
def sampleSemanticConfig : StoreConfig :=
  initConfig false
    (some { embed := some (fun _ => []),
            fields := some ["content.article"], index_name := none })

/-! ## Theorems -/

theorem optedOut_false_iff (index : Option IdxVal) :
    optedOut index = false ↔ index ≠ some (IdxVal.flag false) := by
  rcases index with _ | iv
  · simp [optedOut]
  · rcases iv with b | fs
    · cases b <;> simp [optedOut]
    · simp [optedOut]

theorem optedOut_true_iff (index : Option IdxVal) :
    optedOut index = true ↔ index = some (IdxVal.flag false) := by
  rcases index with _ | iv
  · simp [optedOut]
  · rcases iv with b | fs
    · cases b <;> simp [optedOut]
    · simp [optedOut]

theorem initConfig_semantic_fn (ts : Bool) (ic : Option IndexConfig) :
    (initConfig ts ic).semantic_enabled = true → (initConfig ts ic).embedding_fn.isSome = true := by
  rcases ic with _ | ⟨emb, fcfg, iname⟩
  · simp [initConfig]
  · rcases emb with _ | f <;> simp [initConfig]

theorem putDoc_embedding_isSome_iff (cfg : StoreConfig)
    (hfn : cfg.semantic_enabled = true → cfg.embedding_fn.isSome = true)
    (uuid : String) (now : ℚ) (ns : List String) (key : String) (value : JsonVal)
    (index : Option IdxVal) (ttl : TtlArg) :
    (MongoDBBaseStore.putDoc cfg uuid now ns key value index ttl).embedding.isSome
      ↔ (cfg.semantic_enabled = true
          ∧ index ≠ some (IdxVal.flag false)
          ∧ pyStrip (get_text_at_path value (MongoDBBaseStore.configuredFields cfg)) ≠ "") := by
  have hemb : (MongoDBBaseStore.putDoc cfg uuid now ns key value index ttl).embedding
      = if !optedOut index && cfg.semantic_enabled then
          (if pyStrip (get_text_at_path value (MongoDBBaseStore.configuredFields cfg)) ≠ ""
           then cfg.embedding_fn.map
             (fun f => f (get_text_at_path value (MongoDBBaseStore.configuredFields cfg)))
           else none)
        else none := rfl
  rw [hemb]
  cases hse : cfg.semantic_enabled
  · simp
  · cases hoo : optedOut index
    · rw [optedOut_false_iff] at hoo
      by_cases hs : pyStrip (get_text_at_path value (MongoDBBaseStore.configuredFields cfg)) = ""
      · simp [hs, hoo]
      · simp [hs, hoo, Option.isSome_map, hfn hse]
    · rw [optedOut_true_iff] at hoo
      simp [hoo, optedOut]

/-- C3: a stored record carries an embedding iff semantic search is enabled
for the store, the write did not opt out (`index` is not the literal
`False`), and the text extracted from the configured fields is non-empty
after stripping; and a put with `index = False` never produces an embedding
under any configuration. -/
theorem putDoc_embedding_iff :
    (∀ (ts : Bool) (ic : Option IndexConfig) (uuid : String) (now : ℚ) (ns : List String)
        (key : String) (value : JsonVal) (index : Option IdxVal) (ttl : TtlArg),
      ((MongoDBBaseStore.putDoc (initConfig ts ic) uuid now ns key value index ttl).embedding.isSome
        ↔ ((initConfig ts ic).semantic_enabled = true
            ∧ index ≠ some (IdxVal.flag false)
            ∧ pyStrip (get_text_at_path value
                (MongoDBBaseStore.configuredFields (initConfig ts ic))) ≠ "")))
    ∧ (∀ (cfg : StoreConfig) (uuid : String) (now : ℚ) (ns : List String) (key : String)
        (value : JsonVal) (ttl : TtlArg),
        (MongoDBBaseStore.putDoc cfg uuid now ns key value (some (IdxVal.flag false)) ttl).embedding
          = none) := by
  constructor
  · intro ts ic uuid now ns key value index ttl
    exact putDoc_embedding_isSome_iff (initConfig ts ic) (initConfig_semantic_fn ts ic)
      uuid now ns key value index ttl
  · intro cfg uuid now ns key value ttl
    simp [MongoDBBaseStore.putDoc, optedOut]

theorem gtap_loop_eq (doc : JsonVal) (fields : List String) :
    ∀ acc, gtap_loop doc acc fields
      = acc ++ fields.filterMap (fun field =>
          match descendPath doc (splitDots field) with
          | some (JsonVal.str s) => if pyStrip s = "" then none else some (pyStrip s)
          | _ => none) := by
  induction fields with
  | nil => intro acc; simp [gtap_loop]
  | cons field rest ih =>
    intro acc
    simp only [gtap_loop, List.filterMap_cons]
    cases hd : descendPath doc (splitDots field) with
    | none => simp [hd, ih]
    | some v =>
      cases v with
      | str s =>
        by_cases hs : pyStrip s = ""
        · simp [hd, hs, ih]
        · simp [hd, hs, ih]
      | null => simp [hd, ih]
      | bool b => simp [hd, ih]
      | num q => simp [hd, ih]
      | arr xs => simp [hd, ih]
      | obj fs => simp [hd, ih]

/-- C9 (amended): the extracted text equals the spec formula once each
contribution is stripped and whitespace-only strings are dropped. -/
theorem get_text_at_path_eq_amended (doc : JsonVal) (fields : List String) :
    get_text_at_path doc fields = get_text_at_path_amended doc fields := by
  simp [get_text_at_path, get_text_at_path_amended, gtap_loop_eq]

/-- C9 counterexample: on `{"a": " x "}` with fields `["a"]`, the code
returns the stripped `"x"` while the claim formula yields `" x "`. -/
theorem get_text_at_path_claim_counterexample :
    get_text_at_path (JsonVal.obj [("a", JsonVal.str " x ")]) ["a"] = "x"
    ∧ get_text_at_path_claim (JsonVal.obj [("a", JsonVal.str " x ")]) ["a"] = " x "
    ∧ get_text_at_path (JsonVal.obj [("a", JsonVal.str " x ")]) ["a"]
        ≠ get_text_at_path_claim (JsonVal.obj [("a", JsonVal.str " x ")]) ["a"] :=
  ⟨by decide, by decide, by decide⟩

/-- C8 counterexample: constructing with an `index_config` that lacks
`embed` does not fail — it returns a store with semantic search disabled. -/
theorem init_without_embed_counterexample :
    MongoDBBaseStore.init true
      (some { embed := none, fields := some ["content.article"], index_name := some "store_index" })
    = Except.ok
      { ttl_support := true,
        index_config := some { embed := none, fields := some ["content.article"],
                               index_name := some "store_index" },
        semantic_enabled := false, embedding_fn := none, index_name := none } := rfl

/-- C8 (amended): for every `index_config` without an embedding function,
construction succeeds and silently falls back to non-semantic mode. -/
theorem init_without_embed_disables_semantic (ts : Bool) (fs : Option (List String))
    (iname : Option String) :
    MongoDBBaseStore.init ts (some { embed := none, fields := fs, index_name := iname })
      = Except.ok
        { ttl_support := ts,
          index_config := some { embed := none, fields := fs, index_name := iname },
          semantic_enabled := false, embedding_fn := none, index_name := none } := rfl

/-- C4: with TTL support on, a numeric TTL yields `expiration = now + ttl`
minutes and an explicit `None` TTL stores a cleared expiration; an
unsupplied TTL sets no expiration field; with TTL support off no supplied
TTL ever sets one. -/
theorem putDoc_expiration_cases :
    (∀ (cfg : StoreConfig) (uuid : String) (now : ℚ) (ns : List String) (key : String)
        (value : JsonVal) (index : Option IdxVal) (t : ℚ),
      (MongoDBBaseStore.putDoc {cfg with ttl_support := true} uuid now ns key value index
        (TtlArg.given (some t))).expiration = some (some (now + t)))
    ∧ (∀ (cfg : StoreConfig) (uuid : String) (now : ℚ) (ns : List String) (key : String)
        (value : JsonVal) (index : Option IdxVal),
      (MongoDBBaseStore.putDoc {cfg with ttl_support := true} uuid now ns key value index
        (TtlArg.given none)).expiration = some none)
    ∧ (∀ (cfg : StoreConfig) (uuid : String) (now : ℚ) (ns : List String) (key : String)
        (value : JsonVal) (index : Option IdxVal),
      (MongoDBBaseStore.putDoc cfg uuid now ns key value index TtlArg.notProvided).expiration
        = none)
    ∧ (∀ (cfg : StoreConfig) (uuid : String) (now : ℚ) (ns : List String) (key : String)
        (value : JsonVal) (index : Option IdxVal) (ttl : TtlArg),
      (MongoDBBaseStore.putDoc {cfg with ttl_support := false} uuid now ns key value index
        ttl).expiration = none) := by
  refine ⟨?_, ?_, ?_, ?_⟩
  · intros; simp [MongoDBBaseStore.putDoc, MongoDBBaseStore.compute_expiration]
  · intros; simp [MongoDBBaseStore.putDoc, MongoDBBaseStore.compute_expiration]
  · intros; simp [MongoDBBaseStore.putDoc]
  · intro cfg uuid now ns key value index ttl
    cases ttl <;> simp [MongoDBBaseStore.putDoc]

/-- C1 (code bug exhibit): `put` stores the caller's key in `logical_key`
and a fresh uuid in `key`, but `get` filters on `key`, so a put followed by
a get under the same `(namespace, logical_key)` finds nothing whenever the
uuid differs from the logical key. -/
theorem put_then_get_misses (cfg : StoreConfig) (uuid : String) (now now2 : ℚ)
    (ns : List String) (key : String) (v : JsonVal) (index : Option IdxVal)
    (ttl : TtlArg) (r : Option Bool) (h : uuid ≠ key) :
    (MongoDBBaseStore.putDoc cfg uuid now ns key v index ttl).logical_key = key
    ∧ (MongoDBBaseStore.get cfg
        (MongoDBBaseStore.put cfg [] uuid now ns key v index ttl) now2 ns key r).2 = none := by
  constructor
  · rfl
  · have hb : (uuid == key) = false := beq_eq_false_iff_ne.mpr h
    simp [MongoDBBaseStore.get, MongoDBBaseStore.put, MongoDBBaseStore.putDoc,
          MongoDBBaseStore.matchesGetQuery, List.find?, hb]

/-- C1 witness: Scenario A concretely — put into `["articles"]` under
logical key `"a1"`, then get the same namespace/key: absent. -/
theorem put_then_get_misses_witness :
    ("3f2a0d8e-9c41-4d7a-b5e2-0a1b2c3d4e5f" ≠ "a1")
    ∧ ((MongoDBBaseStore.putDoc (initConfig false none) "3f2a0d8e-9c41-4d7a-b5e2-0a1b2c3d4e5f" 0
          ["articles"] "a1"
          (JsonVal.obj [("content", JsonVal.obj [("article",
            JsonVal.str "SEBI announces new derivatives margin rules")])])
          none TtlArg.notProvided).logical_key = "a1"
       ∧ (MongoDBBaseStore.get (initConfig false none)
            (MongoDBBaseStore.put (initConfig false none) []
              "3f2a0d8e-9c41-4d7a-b5e2-0a1b2c3d4e5f" 0 ["articles"] "a1"
              (JsonVal.obj [("content", JsonVal.obj [("article",
                JsonVal.str "SEBI announces new derivatives margin rules")])])
              none TtlArg.notProvided) 0 ["articles"] "a1" none).2 = none) :=
  ⟨by decide,
   put_then_get_misses (initConfig false none) "3f2a0d8e-9c41-4d7a-b5e2-0a1b2c3d4e5f" 0 0
     ["articles"] "a1"
     (JsonVal.obj [("content", JsonVal.obj [("article",
       JsonVal.str "SEBI announces new derivatives margin rules")])])
     none TtlArg.notProvided none (by decide)⟩

/-- C10: whenever a TTL refresh fires — in `get` or on a vector-phase
document in `search` — the new expiration is the fixed constant
`now + 10` minutes, independent of the TTL originally written. -/
theorem refresh_window_is_ten_minutes :
    (∀ (cfg : StoreConfig) (d : Doc) (now e : ℚ) (ns : List String) (key : String),
      MongoDBBaseStore.get {cfg with ttl_support := true}
          [{d with nspace := ns, key := key, expiration := some (some e)}] now ns key (some true)
        = ([{d with nspace := ns, key := key, expiration := some (some (now + 10))}],
           some (MongoDBBaseStore.docToItem
             {d with nspace := ns, key := key, expiration := some (some (now + 10))})))
    ∧ (∀ (cfg : StoreConfig) (d : Doc) (now e : ℚ),
      (MongoDBBaseStore.refreshDoc {cfg with ttl_support := true} (some true) now
        {d with expiration := some (some e)}).expiration = some (some (now + 10))) := by
  constructor
  · intro cfg d now e ns key
    simp [MongoDBBaseStore.get, MongoDBBaseStore.matchesGetQuery, List.find?,
          MongoDBBaseStore.updateFirst, MongoDBBaseStore.compute_expiration]
  · intro cfg d now e
    simp [MongoDBBaseStore.refreshDoc, MongoDBBaseStore.compute_expiration]

/-- C5: an `OperationFailure` on the vector query is treated as zero vector
results — the search returns exactly what it returns with an empty vector
phase, namely the fallback fill over the paged, projected full-text
cursor. -/
theorem search_vector_failure_uses_fallback (cfg : StoreConfig) (now : ℚ)
    (limit offset : ℕ) (r : Option Bool) (msg : String) (fallbackRaw : List Doc) :
    MongoDBBaseStore.search_semantic cfg now limit offset r
        (MongoDBBaseStore.VectorOutcome.opFailure msg) fallbackRaw
      = MongoDBBaseStore.search_semantic cfg now limit offset r
          (MongoDBBaseStore.VectorOutcome.ok []) fallbackRaw
    ∧ MongoDBBaseStore.search_semantic cfg now limit offset r
        (MongoDBBaseStore.VectorOutcome.opFailure msg) fallbackRaw
      = MongoDBBaseStore.fallbackFill limit [] []
          (((fallbackRaw.drop offset).take limit).map projectSearchDoc) := by
  constructor
  · simp [MongoDBBaseStore.search_semantic]
  · cases limit with
    | zero => simp [MongoDBBaseStore.search_semantic, MongoDBBaseStore.fallbackFill]
    | succ n => simp [MongoDBBaseStore.search_semantic, Nat.succ_pos]

theorem searchItemOfProjected_key (p : ProjectedDoc) :
    (searchItemOfProjected p).key = p.key := rfl

theorem projectSearchDoc_key (d : Doc) : (projectSearchDoc d).key = d.key := rfl

theorem fallbackFill_length_le (limit : ℕ) :
    ∀ (fb : List ProjectedDoc) (results : List SearchItem) (seen : List String),
      results.length < limit →
      (MongoDBBaseStore.fallbackFill limit results seen fb).length ≤ limit := by
  intro fb
  induction fb with
  | nil =>
    intro results seen h
    simpa [MongoDBBaseStore.fallbackFill] using Nat.le_of_lt h
  | cons d ds ih =>
    intro results seen h
    simp only [MongoDBBaseStore.fallbackFill]
    split
    · exact ih results seen h
    · split
      · simpa using h
      · rename_i hlt
        refine ih _ _ ?_
        simp only [List.length_append, List.length_singleton] at hlt ⊢
        omega

theorem fallbackFill_nodup (limit : ℕ) :
    ∀ (fb : List ProjectedDoc) (results : List SearchItem) (seen : List String),
      (results.map SearchItem.key).Nodup →
      (∀ k ∈ results.map SearchItem.key, k ∈ seen) →
      ((MongoDBBaseStore.fallbackFill limit results seen fb).map SearchItem.key).Nodup := by
  intro fb
  induction fb with
  | nil =>
    intro results seen h1 _
    simpa [MongoDBBaseStore.fallbackFill] using h1
  | cons d ds ih =>
    intro results seen h1 h2
    simp only [MongoDBBaseStore.fallbackFill]
    split
    · exact ih results seen h1 h2
    · rename_i hc
      have hnotin : d.key ∉ results.map SearchItem.key := by
        intro hmem
        exact hc (List.elem_iff.mpr (h2 _ hmem))
      have h1' : ((results ++ [searchItemOfProjected d]).map SearchItem.key).Nodup := by
        rw [List.map_append]
        simp only [List.map_cons, List.map_nil, searchItemOfProjected_key]
        refine List.Nodup.append h1 (List.nodup_singleton _) ?_
        intro x hx hxm
        rw [List.mem_singleton] at hxm
        exact hnotin (hxm ▸ hx)
      have h2' : ∀ k ∈ (results ++ [searchItemOfProjected d]).map SearchItem.key,
          k ∈ seen ++ [d.key] := by
        intro k hk
        rw [List.map_append] at hk
        rcases List.mem_append.mp hk with hk | hk
        · exact List.mem_append_left _ (h2 _ hk)
        · simp only [List.map_cons, List.map_nil, List.mem_singleton,
            searchItemOfProjected_key] at hk
          simp [hk]
      split
      · exact h1'
      · exact ih _ _ h1' h2'

/-- C2 (amended): semantic search never returns more than `limit` items;
deduplication is keyed on the projected `key` field — the per-row uuid
storage key, because `logical_key` is excluded by the search projections —
so the fallback phase never adds a row whose storage key already appears,
and the result carries no duplicate storage key provided the vector
phase's own (paged) candidate stream has pairwise-distinct storage keys;
after a vector failure both bounds hold unconditionally.  Records sharing
a logical key are not deduplicated. -/
theorem search_semantic_limit_and_dedup :
    (∀ (cfg : StoreConfig) (now : ℚ) (limit offset : ℕ) (r : Option Bool)
        (ds fallbackRaw : List Doc),
      (((ds.drop offset).take limit).map Doc.key).Nodup →
        ((MongoDBBaseStore.search_semantic cfg now limit offset r
            (MongoDBBaseStore.VectorOutcome.ok ds) fallbackRaw).length ≤ limit
         ∧ ((MongoDBBaseStore.search_semantic cfg now limit offset r
            (MongoDBBaseStore.VectorOutcome.ok ds) fallbackRaw).map SearchItem.key).Nodup))
    ∧ (∀ (cfg : StoreConfig) (now : ℚ) (limit offset : ℕ) (r : Option Bool)
        (msg : String) (fallbackRaw : List Doc),
      ((MongoDBBaseStore.search_semantic cfg now limit offset r
          (MongoDBBaseStore.VectorOutcome.opFailure msg) fallbackRaw).length ≤ limit
       ∧ ((MongoDBBaseStore.search_semantic cfg now limit offset r
          (MongoDBBaseStore.VectorOutcome.opFailure msg) fallbackRaw).map SearchItem.key).Nodup)) := by
  constructor
  · intro cfg now limit offset r ds fbRaw hn
    simp only [MongoDBBaseStore.search_semantic]
    set D := (ds.drop offset).take limit with hD
    set PD := D.map projectSearchDoc with hPD
    set RS := PD.map searchItemOfProjected with hRS
    have hkeys : RS.map SearchItem.key = D.map Doc.key := by
      rw [hRS, hPD, List.map_map, List.map_map]
      rfl
    have hseen : RS.map SearchItem.key = PD.map (fun d => d.key) := by
      rw [hRS, List.map_map]
      rfl
    have hlen : RS.length = D.length := by simp [hRS, hPD]
    have hDle : D.length ≤ limit := by
      rw [hD, List.length_take]
      exact Nat.min_le_left _ _
    constructor
    · split
      · rename_i hlt
        exact fallbackFill_length_le limit _ RS _ hlt
      · exact hlen ▸ hDle
    · split
      · refine fallbackFill_nodup limit _ RS _ ?_ ?_
        · rw [hkeys]; exact hn
        · intro k hk
          rwa [hseen] at hk
      · rw [hkeys]; exact hn
  · intro cfg now limit offset r msg fbRaw
    simp only [MongoDBBaseStore.search_semantic, List.map_nil, List.length_nil, Nat.sub_zero]
    constructor
    · split
      · rename_i hlt
        exact fallbackFill_length_le limit _ [] [] hlt
      · simp
    · split
      · refine fallbackFill_nodup limit _ [] [] ?_ ?_ <;> simp
      · simp

/-- C2 counterexample: the vector phase returns the row with uuid "u1" and
the fallback cursor holds the row with uuid "u2", both stored under
logical key "a1" (two historical puts of one logical key).  Because the
projections strip `logical_key`, the dedup compares uuids, so the fallback
appends the second row even though its logical key already appears: search
returns two items for records sharing a logical key. -/
theorem search_semantic_duplicate_counterexample :
    ((MongoDBBaseStore.search_semantic sampleSemanticConfig 0 2 0 none
        (MongoDBBaseStore.VectorOutcome.ok [sampleDoc "u1" "a1"])
        [sampleDoc "u2" "a1"]).map SearchItem.key) = ["u1", "u2"]
    ∧ (sampleDoc "u1" "a1").logical_key = "a1"
    ∧ (sampleDoc "u2" "a1").logical_key = "a1" :=
  ⟨by decide, rfl, rfl⟩

/-- C2 witness for the amended theorem, at a vector stream with distinct
storage keys. -/
theorem search_semantic_limit_and_dedup_witness :
    ((([sampleDoc "u1" "a1", sampleDoc "u2" "a1"].drop 0).take 2).map Doc.key).Nodup
    ∧ ((MongoDBBaseStore.search_semantic (initConfig false none) 0 2 0 none
        (MongoDBBaseStore.VectorOutcome.ok [sampleDoc "u1" "a1", sampleDoc "u2" "a1"])
        []).length ≤ 2
       ∧ ((MongoDBBaseStore.search_semantic (initConfig false none) 0 2 0 none
          (MongoDBBaseStore.VectorOutcome.ok [sampleDoc "u1" "a1", sampleDoc "u2" "a1"])
          []).map SearchItem.key).Nodup) :=
  ⟨by decide,
   search_semantic_limit_and_dedup.1 (initConfig false none) 0 2 0 none
     [sampleDoc "u1" "a1", sampleDoc "u2" "a1"] [] (by decide)⟩

theorem nsLe_total (a b : List String) : nsLe a b = true ∨ nsLe b a = true := by
  induction a generalizing b with
  | nil => exact Or.inl rfl
  | cons x xs ih =>
    cases b with
    | nil => exact Or.inr rfl
    | cons y ys =>
      simp only [nsLe]
      rcases lt_trichotomy x y with h | h | h
      · left; rw [if_pos h]
      · subst h
        rw [if_neg (lt_irrefl x), if_pos rfl, if_neg (lt_irrefl x), if_pos rfl]
        exact ih ys
      · right; rw [if_pos h]

theorem nsLe_trans (a b c : List String) (hab : nsLe a b = true) (hbc : nsLe b c = true) :
    nsLe a c = true := by
  induction a generalizing b c with
  | nil => rfl
  | cons x xs ih =>
    cases b with
    | nil => simp [nsLe] at hab
    | cons y ys =>
      cases c with
      | nil => simp [nsLe] at hbc
      | cons z zs =>
        simp only [nsLe] at hab hbc ⊢
        by_cases hxy : x < y
        · by_cases hyz : y < z
          · rw [if_pos (lt_trans hxy hyz)]
          · rw [if_neg hyz] at hbc
            by_cases heq : y = z
            · subst heq; rw [if_pos hxy]
            · rw [if_neg heq] at hbc; exact absurd hbc (by simp)
        · rw [if_neg hxy] at hab
          by_cases heq : x = y
          · subst heq
            rw [if_pos rfl] at hab
            by_cases hyz : x < z
            · rw [if_pos hyz]
            · rw [if_neg hyz] at hbc ⊢
              by_cases heq2 : x = z
              · rw [if_pos heq2] at hbc ⊢
                exact ih ys zs hab hbc
              · rw [if_neg heq2] at hbc; exact absurd hbc (by simp)
          · rw [if_neg heq] at hab; exact absurd hab (by simp)

theorem insertNS_perm (l : List (List String)) (x : List String) :
    (insertNS x l).Perm (x :: l) := by
  induction l with
  | nil => exact List.Perm.refl _
  | cons y ys ih =>
    simp only [insertNS]
    split
    · exact List.Perm.refl _
    · exact (ih.cons y).trans (List.Perm.swap x y ys)

theorem sortNS_perm (l : List (List String)) : (sortNS l).Perm l := by
  induction l with
  | nil => exact List.Perm.refl _
  | cons x xs ih =>
    exact (insertNS_perm (sortNS xs) x).trans (ih.cons x)

theorem pairwise_insertNS (x : List String) (l : List (List String))
    (hp : l.Pairwise (fun a b => nsLe a b = true)) :
    (insertNS x l).Pairwise (fun a b => nsLe a b = true) := by
  induction l with
  | nil => simp [insertNS]
  | cons y ys ih =>
    rcases hp with _ | ⟨hhead, htail⟩
    simp only [insertNS]
    split
    · rename_i hxy
      refine List.Pairwise.cons ?_ (List.Pairwise.cons hhead htail)
      intro z hz
      rcases List.mem_cons.mp hz with hz | hz
      · subst hz; exact hxy
      · exact nsLe_trans x y z hxy (hhead z hz)
    · rename_i hxy
      have hyx : nsLe y x = true := by
        rcases nsLe_total x y with h | h
        · exact absurd h hxy
        · exact h
      refine List.Pairwise.cons ?_ (ih htail)
      intro z hz
      have hz2 := (insertNS_perm ys x).mem_iff.mp hz
      rcases List.mem_cons.mp hz2 with hz2 | hz2
      · subst hz2; exact hyx
      · exact hhead z hz2

theorem pairwise_sortNS (l : List (List String)) :
    (sortNS l).Pairwise (fun a b => nsLe a b = true) := by
  induction l with
  | nil => simp [sortNS]
  | cons x xs ih => exact pairwise_insertNS x (sortNS xs) ih

theorem suffixFiltered_subset (distinctNs : List (List String)) (sfx : Option (List String)) :
    suffixFiltered distinctNs sfx ⊆ distinctNs := by
  rcases sfx with _ | s
  · exact fun a h => h
  · simp only [suffixFiltered]
    split
    · exact fun a h => h
    · exact (List.filter_sublist _).subset

/-- C6: with `max_depth = d`, every returned namespace is a length-≤-d
truncation of a surviving namespace (truncation happens before
deduplication), the result has no duplicates, is sorted lexicographically
by segment sequence, and is exactly the `[offset : offset + limit]` page of
the sorted deduplicated sequence. -/
theorem list_namespaces_spec (distinctNs : List (List String))
    (sfx : Option (List String)) (d limit offset : ℕ) :
    (∀ ns ∈ MongoDBBaseStore.list_namespaces distinctNs sfx (some d) limit offset,
      ns.length ≤ d ∧ ∃ o ∈ suffixFiltered distinctNs sfx, o ∈ distinctNs ∧ ns = o.take d)
    ∧ (MongoDBBaseStore.list_namespaces distinctNs sfx (some d) limit offset).Nodup
    ∧ (MongoDBBaseStore.list_namespaces distinctNs sfx (some d) limit offset).Pairwise
        (fun a b => nsLe a b = true)
    ∧ (MongoDBBaseStore.list_namespaces distinctNs sfx (some d) limit offset).length ≤ limit
    ∧ MongoDBBaseStore.list_namespaces distinctNs sfx (some d) limit offset
        = ((sortNS ((suffixFiltered distinctNs sfx).map
            (fun ns : List String => ns.take d)).dedup).drop offset).take limit := by
  have hdef : MongoDBBaseStore.list_namespaces distinctNs sfx (some d) limit offset
      = ((sortNS ((suffixFiltered distinctNs sfx).map
          (fun ns : List String => ns.take d)).dedup).drop offset).take limit := rfl
  set full := sortNS ((suffixFiltered distinctNs sfx).map
      (fun ns : List String => ns.take d)).dedup with hfull
  have hsub : ((full.drop offset).take limit).Sublist full :=
    (List.take_sublist _ _).trans (List.drop_sublist _ _)
  have hfullnodup : full.Nodup :=
    (sortNS_perm _).nodup_iff.mpr (List.nodup_dedup _)
  refine ⟨?_, ?_, ?_, ?_, hdef⟩
  · intro ns hns
    rw [hdef] at hns
    have h1 : ns ∈ full := hsub.subset hns
    have h2 : ns ∈ ((suffixFiltered distinctNs sfx).map
        (fun ns : List String => ns.take d)).dedup := (sortNS_perm _).mem_iff.mp h1
    have h3 := List.mem_dedup.mp h2
    obtain ⟨o, ho, rfl⟩ := List.mem_map.mp h3
    refine ⟨?_, o, ho, suffixFiltered_subset distinctNs sfx ho, rfl⟩
    rw [List.length_take]
    exact Nat.min_le_left _ _
  · rw [hdef]
    exact List.Nodup.sublist hsub hfullnodup
  · rw [hdef]
    exact List.Pairwise.sublist hsub (pairwise_sortNS _)
  · rw [hdef, List.length_take]
    exact Nat.min_le_left _ _

/-- C6 witness: a concrete enumeration with `max_depth = 1`. -/
theorem list_namespaces_spec_witness :
    (["a"] : List String).length ≤ 1
    ∧ ∃ o ∈ suffixFiltered [["a", "b"], ["a"]] none,
        o ∈ [["a", "b"], ["a"]] ∧ ["a"] = o.take 1 :=
  (list_namespaces_spec [["a", "b"], ["a"]] none 1 10 0).1 ["a"] (by decide)

theorem batch_append (cfg : StoreConfig) :
    ∀ (l1 l2 : List StoreOp) (col : List Doc),
      MongoDBBaseStore.batch cfg col (l1 ++ l2)
        = ((MongoDBBaseStore.batch cfg (MongoDBBaseStore.batch cfg col l1).1 l2).1,
           (MongoDBBaseStore.batch cfg col l1).2
             ++ (MongoDBBaseStore.batch cfg (MongoDBBaseStore.batch cfg col l1).1 l2).2) := by
  intro l1
  induction l1 with
  | nil => intro l2 col; simp [MongoDBBaseStore.batch]
  | cons op ops ih =>
    intro l2 col
    simp [MongoDBBaseStore.batch, ih]

theorem batch_length (cfg : StoreConfig) :
    ∀ (ops : List StoreOp) (col : List Doc),
      ((MongoDBBaseStore.batch cfg col ops).2).length = ops.length := by
  intro ops
  induction ops with
  | nil => intro col; rfl
  | cons op rest ih =>
    intro col
    simp [MongoDBBaseStore.batch, ih]

/-- C7: `batch` returns exactly one result per op in submission order; an
op of unrecognized kind contributes a `None` slot without touching the
collection or the surrounding ops; and a `PutOp` whose value is absent is
dispatched as a `delete`. -/
theorem batch_dispatch_spec :
    (∀ (cfg : StoreConfig) (col : List Doc) (ops : List StoreOp),
      ((MongoDBBaseStore.batch cfg col ops).2).length = ops.length)
    ∧ (∀ (cfg : StoreConfig) (col : List Doc) (pre post : List StoreOp),
      MongoDBBaseStore.batch cfg col (pre ++ StoreOp.unknown :: post)
        = ((MongoDBBaseStore.batch cfg (MongoDBBaseStore.batch cfg col pre).1 post).1,
           (MongoDBBaseStore.batch cfg col pre).2
             ++ none :: (MongoDBBaseStore.batch cfg (MongoDBBaseStore.batch cfg col pre).1 post).2))
    ∧ (∀ (cfg : StoreConfig) (col : List Doc) (uuid : String) (now : ℚ) (ns : List String)
        (key : String) (index : Option IdxVal) (ttl : TtlArg),
      MongoDBBaseStore.execOp cfg col (StoreOp.putOp uuid now ns key none index ttl)
        = (MongoDBBaseStore.delete col ns key, none)) := by
  refine ⟨?_, ?_, ?_⟩
  · intro cfg col ops
    exact batch_length cfg ops col
  · intro cfg col pre post
    rw [batch_append]
    simp [MongoDBBaseStore.batch, MongoDBBaseStore.execOp]
  · intros
    rfl
